import Mathlib

/-!
Shallow embedding of `src/utils/utils.py` from the MultiAgentTrading
repository: the `ExperienceReplay` buffer and the `plot_portfolio`
portfolio simulator, together with proofs of the testable properties
stated in the specification.
-/

/-- Failure modes of a `plot_portfolio` run: an out-of-range access into the
price array (Python `IndexError`) or a division by a zero price
(Python `ZeroDivisionError`). -/
inductive SimError where
  | indexError
  | divByZero
  deriving DecidableEq, Repr

/-- Reading `close_prices[i]`: Python raises `IndexError` when `i` is out of
range. -/
def getPrice (prices : List ℚ) (i : ℕ) : Except SimError ℚ :=
  match prices[i]? with
  | some p => Except.ok p
  | none => Except.error SimError.indexError

/-- Reading `portfolio_value[-1]`, Python's last-element access; it is an
`IndexError` on an empty list (never reached here since the list starts
nonempty and only grows). -/
def lastValue (xs : List ℚ) : Except SimError ℚ :=
  match xs.getLast? with
  | some v => Except.ok v
  | none => Except.error SimError.indexError

/-- Division as in the Python source, raising `ZeroDivisionError` on a zero
divisor. -/
def pyDiv (a b : ℚ) : Except SimError ℚ :=
  if b = 0 then Except.error SimError.divByZero else Except.ok (a / b)

/-- Mutable state of `plot_portfolio`'s loop: the `portfolio_value` list,
the `own_share` flag and the `num_shares` count (utils.py lines 105-107). -/
structure PState where
  portfolio_value : List ℚ
  own_share : Bool
  num_shares : ℚ
  deriving DecidableEq, Repr

/-- Embedding of the `for i, action in enumerate(actions)` loop of
`plot_portfolio` (utils.py lines 115-138). `acts` is the remaining suffix of
the action list, `i` the current index, `n` the total `len(actions)`.
Branches appear in source order; `n - 1` is `len(actions) - 1` (truncated ℕ
subtraction agrees with Python because the loop body only runs when
`n ≥ 1`). -/
def plotLoop (prices : List ℚ) (n : ℕ) :
    List ℤ → ℕ → PState → Except SimError PState
  | [], _, s => Except.ok s
  | action :: acts, i, s =>
    if action = 0 ∧ s.num_shares = 0 then do
      let v ← lastValue s.portfolio_value
      let p ← getPrice prices i
      let ns ← pyDiv v p
      if i < n - 1 then do
        let p2 ← getPrice prices (i + 1)
        plotLoop prices n acts (i + 1) ⟨s.portfolio_value ++ [ns * p2], true, ns⟩
      else
        plotLoop prices n acts (i + 1) ⟨s.portfolio_value, true, ns⟩
    else if action = 2 ∧ 0 < s.num_shares then do
      let p ← getPrice prices i
      plotLoop prices n acts (i + 1)
        ⟨s.portfolio_value ++ [s.num_shares * p], false, 0⟩
    else if (action = 0 ∨ action = 1) ∧ 0 < s.num_shares then
      if i < n - 1 then do
        let p2 ← getPrice prices (i + 1)
        plotLoop prices n acts (i + 1)
          ⟨s.portfolio_value ++ [s.num_shares * p2], s.own_share, s.num_shares⟩
      else
        plotLoop prices n acts (i + 1) s
    else if (action = 2 ∨ action = 1) ∧ s.num_shares = 0 then do
      let v ← lastValue s.portfolio_value
      plotLoop prices n acts (i + 1)
        ⟨s.portfolio_value ++ [v], s.own_share, s.num_shares⟩
    else
      plotLoop prices n acts (i + 1) s

/-- Embedding of `plot_portfolio(data, actions, initial_balance)`
(utils.py lines 95-143), returning the `portfolio_value` trajectory.
The state starts at `([initial_balance], own_share = False,
num_shares = 0)`; the `plt` calls are external side effects with no bearing
on the returned value. -/
def plot_portfolio (actions : List ℤ) (close_prices : List ℚ)
    (initial_balance : ℚ) : Except SimError (List ℚ) :=
  (plotLoop close_prices actions.length actions 0
    ⟨[initial_balance], false, 0⟩).map PState.portfolio_value

/-- Record type of the `Experience` namedtuple created in
`ExperienceReplay.__init__` (utils.py line 11): four fields, one value type
for all slots, mirroring Python's untyped tuple. -/
structure Transition (α : Type) where
  state : α
  action : α
  next_state : α
  reward : α
  deriving DecidableEq, Repr

/-- Field names of the `Experience` namedtuple, exactly as declared on
line 11 of `utils.py`. -/
def experienceFields : List String :=
  ["state", "action", "next_state", "reward"]

/-- Failure modes of the replay-buffer operations: `typeError` is Python's
`TypeError` when the namedtuple constructor does not receive exactly one
argument per declared field; `insufficientData` is the `ValueError` that
`random.sample` raises when asked for more elements than the population
holds (the spec's `InsufficientDataError`). -/
inductive ReplayError where
  | typeError
  | insufficientData
  deriving DecidableEq, Repr

/-- Building `self.transition(*args)`: the namedtuple constructor succeeds
exactly when the argument count matches the four declared fields. -/
def mkTransition (args : List α) : Except ReplayError (Transition α) :=
  match args with
  | [s, a, ns, r] => Except.ok ⟨s, a, ns, r⟩
  | _ => Except.error ReplayError.typeError

/-- Semantics of `deque.append` on a deque constructed with `maxlen`
(utils.py line 10): when the deque is full the oldest (leftmost) element is
discarded as the new one is appended. -/
def dequeAppend (maxlen : ℕ) (buf : List α) (x : α) : List α :=
  if maxlen = 0 then []
  else if buf.length < maxlen then buf ++ [x]
  else buf.tail ++ [x]

/-- One `ExperienceReplay.add_experience(*args)` call (utils.py lines 18-20)
on a buffer built with `buffer_size = maxlen`. -/
def add_experience (maxlen : ℕ) (buf : List (Transition α)) (args : List α) :
    Except ReplayError (List (Transition α)) :=
  (mkTransition args).map (dequeAppend maxlen buf)

/-- Successive well-formed `add_experience` calls, one per transition of
`ts`, starting from buffer `buf`. -/
def addAll (maxlen : ℕ) (buf : List (Transition α))
    (ts : List (Transition α)) : List (Transition α) :=
  ts.foldl (dequeAppend maxlen) buf

/-- Semantics of `random.sample(buffer, k)` (utils.py line 24): it raises
`ValueError` when `k` exceeds the population size, and otherwise returns
the elements found at `k` distinct pseudo-randomly chosen positions. The
random choice is modelled by the explicit position list `sel`; theorems
constrain `sel` to be duplicate-free of length `k`, which is exactly the
shape of selection `random.sample` produces. -/
def randomSample (buf : List α) (k : ℕ) (sel : List (Fin buf.length)) :
    Except ReplayError (List α) :=
  if k ≤ buf.length then Except.ok (sel.map buf.get)
  else Except.error ReplayError.insufficientData

/-- Transposition `self.transition(*zip(*samples))` (utils.py line 26): the
separated form of a batch. `zip(*samples)` turns the batch into one column
per field; splatting the columns back into the namedtuple yields four
parallel lists. On an empty batch `zip` produces no columns at all and the
namedtuple constructor fails with `TypeError`. -/
def separateSamples (samples : List (Transition α)) :
    Except ReplayError (Transition (List α)) :=
  match samples with
  | [] => Except.error ReplayError.typeError
  | _ :: _ =>
    Except.ok ⟨samples.map Transition.state, samples.map Transition.action,
      samples.map Transition.next_state, samples.map Transition.reward⟩

/-- Call `ExperienceReplay.sample(batch_size, separate=False)` (utils.py
lines 22-28): the plain list form. -/
def sampleList (buf : List (Transition α)) (batch_size : ℕ)
    (sel : List (Fin buf.length)) :
    Except ReplayError (List (Transition α)) :=
  randomSample buf batch_size sel

/-- Call `ExperienceReplay.sample(batch_size, separate=True)` (the default):
the separated form. -/
def sampleSeparated (buf : List (Transition α)) (batch_size : ℕ)
    (sel : List (Fin buf.length)) :
    Except ReplayError (Transition (List α)) := do
  let samples ← randomSample buf batch_size sel
  separateSamples samples

/-- Loop invariant of `plot_portfolio` under positive prices and a positive
starting balance: the `own_share` flag mirrors `num_shares > 0`, and the
trajectory is nonempty with every entry positive. -/
def SimInv (s : PState) : Prop :=
  (s.own_share = true ↔ 0 < s.num_shares) ∧
  s.portfolio_value ≠ [] ∧ ∀ v ∈ s.portfolio_value, 0 < v

/-! ### Helper lemmas about the `Except` monad and the primitive accessors -/

theorem ok_bind {ε α β : Type} (a : α) (f : α → Except ε β) :
    (Except.ok a : Except ε α) >>= f = f a := rfl

theorem error_bind {ε α β : Type} (e : ε) (f : α → Except ε β) :
    (Except.error e : Except ε α) >>= f = Except.error e := rfl

theorem ok_map {ε α β : Type} (f : α → β) (a : α) :
    Except.map f (Except.ok a : Except ε α) = Except.ok (f a) := rfl

theorem error_map {ε α β : Type} (f : α → β) (e : ε) :
    Except.map f (Except.error e : Except ε α) = Except.error e := rfl

theorem getPrice_ok_mem {prices : List ℚ} {i : ℕ} {p : ℚ}
    (h : getPrice prices i = Except.ok p) : p ∈ prices := by
  unfold getPrice at h
  rcases hp : prices[i]? with _ | q
  · rw [hp] at h; exact absurd h (by simp)
  · rw [hp] at h
    obtain rfl : q = p := by exact Except.ok.inj h
    exact List.getElem?_mem hp

theorem getPrice_ok_of_lt {prices : List ℚ} {i : ℕ} (h : i < prices.length) :
    ∃ p, getPrice prices i = Except.ok p ∧ p ∈ prices := by
  refine ⟨prices[i], ?_, List.getElem_mem h⟩
  unfold getPrice
  rw [List.getElem?_eq_getElem h]

theorem lastValue_ok_mem {xs : List ℚ} {v : ℚ}
    (h : lastValue xs = Except.ok v) : v ∈ xs := by
  unfold lastValue at h
  rcases hl : xs.getLast? with _ | w
  · rw [hl] at h; exact absurd h (by simp)
  · rw [hl] at h
    have hwv : w = v := Except.ok.inj h
    obtain ⟨hne, hv⟩ := List.mem_getLast?_eq_getLast (show w ∈ xs.getLast? from hl)
    exact (hwv ▸ hv) ▸ List.getLast_mem hne

theorem lastValue_of_ne_nil {xs : List ℚ} (h : xs ≠ []) :
    ∃ v, lastValue xs = Except.ok v ∧ v ∈ xs := by
  rcases hl : xs.getLast? with _ | w
  · exact absurd (List.getLast?_eq_none_iff.mp hl) h
  · obtain ⟨hne, rfl⟩ := List.mem_getLast?_eq_getLast (show w ∈ xs.getLast? from hl)
    exact ⟨_, by unfold lastValue; rw [hl], List.getLast_mem hne⟩

theorem pyDiv_ok {a b c : ℚ} (h : pyDiv a b = Except.ok c) :
    c = a / b ∧ b ≠ 0 := by
  unfold pyDiv at h
  by_cases hb : b = 0
  · rw [if_pos hb] at h; exact absurd h (by simp)
  · rw [if_neg hb] at h; exact ⟨(Except.ok.inj h).symm, hb⟩

theorem pyDiv_of_ne_zero {b : ℚ} (a : ℚ) (hb : b ≠ 0) :
    pyDiv a b = Except.ok (a / b) := by
  unfold pyDiv; rw [if_neg hb]

/-! ### Concrete simulator runs and the all-HOLD trajectory -/

/-- Lemma: a run of HOLD actions while flat (`num_shares = 0`) takes the
fourth branch each time, appending the carried last value once per action
and changing neither `own_share` nor `num_shares`. -/
theorem plotLoop_hold (prices : List ℚ) (n : ℕ) (k : ℕ) :
    ∀ (i : ℕ) (pv : List ℚ) (own : Bool) (v : ℚ), pv.getLast? = some v →
      plotLoop prices n (List.replicate k 1) i ⟨pv, own, 0⟩ =
        Except.ok ⟨pv ++ List.replicate k v, own, 0⟩ := by
  induction k with
  | zero => intro i pv own v h; simp [plotLoop]
  | succ k ih =>
    intro i pv own v h
    have hlv : lastValue pv = Except.ok v := by unfold lastValue; rw [h]
    rw [List.replicate_succ]
    simp only [plotLoop]
    norm_num
    rw [hlv, ok_bind, ih (i + 1) (pv ++ [v]) own v (by rw [List.getLast?_concat])]
    simp [List.replicate_succ]

/-- Claim C1, counterexample: with actions BUY then SELL, close prices
`[100, 110]` and `initial_balance = 1000`, the trajectory is not
`[1000, 1100]` — the SELL at index 1 appends the liquidation value again, so
a third entry appears. -/
theorem C1_roundtrip_counterexample :
    plot_portfolio [0, 2] [100, 110] 1000 ≠ Except.ok [1000, 1100] := by
  norm_num [plot_portfolio, plotLoop, lastValue, getPrice, pyDiv, ok_bind, ok_map]

/-- Claim C1, amended: BUY at index 0 followed by SELL at index 1 with close
prices `[100, 110]` and `initial_balance = 1000` produces exactly the
portfolio-value trajectory `[1000, 1100, 1100]`: the BUY appends the
forward-looking valuation `1100` and the SELL appends the realized
liquidation value `1100` once more. -/
theorem C1_roundtrip_amended :
    plot_portfolio [0, 2] [100, 110] 1000 = Except.ok [1000, 1100, 1100] := by
  norm_num [plot_portfolio, plotLoop, lastValue, getPrice, pyDiv, ok_bind, ok_map]

/-- Claim C3, counterexample: an action list and a price list of unequal
lengths are not rejected — no error of any kind is raised; the simulator
silently iterates over the (shorter) action sequence and returns a
trajectory. -/
theorem C3_mismatch_counterexample :
    ([1] : List ℤ).length ≠ ([100, 110] : List ℚ).length ∧
    plot_portfolio [1] [100, 110] 1000 = Except.ok [1000, 1000] := by
  constructor
  · decide
  · norm_num [plot_portfolio, plotLoop, lastValue, getPrice, pyDiv, ok_bind, ok_map]

/-- Claim C7, counterexample: a 1-length all-HOLD run starting flat yields
the two-entry trajectory `[1000, 1000]`, not the singleton
`[initial_balance]` — the flat-carry branch appends one entry per action. -/
theorem C7_all_hold_counterexample :
    plot_portfolio [1] [100] 1000 = Except.ok [1000, 1000] ∧
    plot_portfolio [1] [100] 1000 ≠ Except.ok [1000] := by
  constructor
  · norm_num [plot_portfolio, plotLoop, lastValue, getPrice, pyDiv, ok_bind, ok_map]
  · norm_num [plot_portfolio, plotLoop, lastValue, getPrice, pyDiv, ok_bind, ok_map]

/-- Claim C7, amended: for every `n ≥ 1` and every price sequence of length
`n`, an all-HOLD action sequence of length `n` starting flat yields the
constant trajectory of `n + 1` entries all equal to `initial_balance`. -/
theorem C7_all_hold_amended (n : ℕ) (prices : List ℚ) (b : ℚ)
    (hn : 1 ≤ n) (hlen : prices.length = n) :
    plot_portfolio (List.replicate n 1) prices b =
      Except.ok (List.replicate (n + 1) b) := by
  unfold plot_portfolio
  rw [List.length_replicate, plotLoop_hold prices n n 0 [b] false b (by simp)]
  simp [ok_map, List.replicate_succ]

/-- Claim C7, amended, witness at `n = 2`, prices `[5, 7]`,
`initial_balance = 1000`. -/
theorem C7_all_hold_amended_witness :
    plot_portfolio (List.replicate 2 1) [5, 7] 1000 =
      Except.ok (List.replicate 3 1000) :=
  C7_all_hold_amended 2 [5, 7] 1000 (by norm_num) (by norm_num)

/-- Claim C8: a single BUY on a 1-length price series converts the balance
into shares but, the index being final, appends no second value: the
trajectory stays `[initial_balance]`. The price must be nonzero for the
share computation to divide. -/
theorem C8_terminal_buy (p b : ℚ) (hp : p ≠ 0) :
    plot_portfolio [0] [p] b = Except.ok [b] := by
  norm_num [plot_portfolio, plotLoop, lastValue, getPrice, pyDiv, hp, ok_bind, ok_map]

/-- Claim C8, witness at price `100` and `initial_balance = 1000`. -/
theorem C8_terminal_buy_witness :
    plot_portfolio [0] [100] 1000 = Except.ok [1000] :=
  C8_terminal_buy 100 1000 (by norm_num)

/-! ### Invariants of the simulator loop and index safety -/

theorem bind_eq_ok {ε α β : Type} {x : Except ε α} {f : α → Except ε β} {b : β}
    (h : x >>= f = Except.ok b) : ∃ a, x = Except.ok a ∧ f a = Except.ok b := by
  cases x with
  | ok a => exact ⟨a, rfl, by rwa [ok_bind] at h⟩
  | error e => rw [error_bind] at h; exact absurd h (by simp)

theorem map_eq_error {ε α β : Type} (f : α → β) (x : Except ε α) (e : ε) :
    Except.map f x = Except.error e ↔ x = Except.error e := by
  cases x
  · simp [error_map]
  · simp [ok_map]

theorem pos_append {pv : List ℚ} {y : ℚ} (hpv : ∀ v ∈ pv, 0 < v) (hy : 0 < y) :
    ∀ v ∈ pv ++ [y], 0 < v := by
  intro x hx
  rcases List.mem_append.mp hx with hx | hx
  · exact hpv x hx
  · rw [List.mem_singleton.mp hx]; exact hy

/-- Preservation: every branch of the loop keeps `SimInv`, provided all
prices are positive. -/
theorem plotLoop_inv (prices : List ℚ) (n : ℕ) (hp : ∀ p ∈ prices, 0 < p) :
    ∀ (acts : List ℤ) (i : ℕ) (s s' : PState), SimInv s →
      plotLoop prices n acts i s = Except.ok s' → SimInv s' := by
  intro acts
  induction acts with
  | nil =>
    intro i s s' hs h
    simp only [plotLoop] at h
    exact (Except.ok.inj h) ▸ hs
  | cons a acts ih =>
    intro i s s' hs h
    obtain ⟨hown, hne, hpos⟩ := hs
    simp only [plotLoop] at h
    split at h
    · obtain ⟨v, hv, h⟩ := bind_eq_ok h
      obtain ⟨p, hp1, h⟩ := bind_eq_ok h
      obtain ⟨ns, hns, h⟩ := bind_eq_ok h
      obtain ⟨hns_eq, hp_ne⟩ := pyDiv_ok hns
      have hv_pos : 0 < v := hpos v (lastValue_ok_mem hv)
      have hp_pos : 0 < p := hp p (getPrice_ok_mem hp1)
      have hns_pos : 0 < ns := hns_eq ▸ div_pos hv_pos hp_pos
      split at h
      · obtain ⟨p2, hp2, h⟩ := bind_eq_ok h
        have hp2_pos : 0 < p2 := hp p2 (getPrice_ok_mem hp2)
        exact ih (i + 1) ⟨s.portfolio_value ++ [ns * p2], true, ns⟩ s'
          ⟨by simpa using hns_pos, by simp,
            pos_append hpos (mul_pos hns_pos hp2_pos)⟩ h
      · exact ih (i + 1) ⟨s.portfolio_value, true, ns⟩ s'
          ⟨by simpa using hns_pos, hne, hpos⟩ h
    · split at h
      · rename_i hc
        obtain ⟨p, hp1, h⟩ := bind_eq_ok h
        have hp_pos : 0 < p := hp p (getPrice_ok_mem hp1)
        exact ih (i + 1) ⟨s.portfolio_value ++ [s.num_shares * p], false, 0⟩ s'
          ⟨by simp, by simp, pos_append hpos (mul_pos hc.2 hp_pos)⟩ h
      · split at h
        · rename_i hc
          split at h
          · obtain ⟨p2, hp2, h⟩ := bind_eq_ok h
            have hp2_pos : 0 < p2 := hp p2 (getPrice_ok_mem hp2)
            exact ih (i + 1)
              ⟨s.portfolio_value ++ [s.num_shares * p2], s.own_share, s.num_shares⟩ s'
              ⟨hown, by simp, pos_append hpos (mul_pos hc.2 hp2_pos)⟩ h
          · exact ih (i + 1) s s' ⟨hown, hne, hpos⟩ h
        · split at h
          · obtain ⟨v, hv, h⟩ := bind_eq_ok h
            exact ih (i + 1)
              ⟨s.portfolio_value ++ [v], s.own_share, s.num_shares⟩ s'
              ⟨hown, by simp, pos_append hpos (hpos v (lastValue_ok_mem hv))⟩ h
          · exact ih (i + 1) s s' ⟨hown, hne, hpos⟩ h

/-- Index safety of the loop: when the loop will touch at most `n` indices
and `n` is within the price array, no price access is out of range; the only
possible failure is a division by a zero price, and with all prices nonzero
the loop completes. -/
theorem plotLoop_no_index_error (prices : List ℚ) (n : ℕ)
    (hn : n ≤ prices.length) :
    ∀ (acts : List ℤ) (i : ℕ) (s : PState), i + acts.length ≤ n →
      s.portfolio_value ≠ [] →
      (plotLoop prices n acts i s ≠ Except.error SimError.indexError ∧
        ((∀ p ∈ prices, p ≠ 0) →
          ∃ s', plotLoop prices n acts i s = Except.ok s')) := by
  intro acts
  induction acts with
  | nil =>
    intro i s hi hne
    exact ⟨by simp [plotLoop], fun _ => ⟨s, by simp [plotLoop]⟩⟩
  | cons a acts ih =>
    intro i s hi hne
    have hlen : i + (acts.length + 1) ≤ n := by simpa using hi
    have hip : i < prices.length := by omega
    obtain ⟨p, hpi, hpmem⟩ := getPrice_ok_of_lt hip
    obtain ⟨v, hvl, hvmem⟩ := lastValue_of_ne_nil hne
    simp only [plotLoop]
    split
    · rw [hvl, ok_bind, hpi, ok_bind]
      by_cases hz : p = 0
      · rw [hz]
        have hdz : pyDiv v 0 = Except.error SimError.divByZero := by
          unfold pyDiv; rw [if_pos rfl]
        rw [hdz, error_bind]
        exact ⟨by simp, fun hnz => absurd hz (hnz p hpmem)⟩
      · rw [pyDiv_of_ne_zero v hz, ok_bind]
        split
        · rename_i hi1
          have hip2 : i + 1 < prices.length := by omega
          obtain ⟨p2, hp2, _⟩ := getPrice_ok_of_lt hip2
          rw [hp2, ok_bind]
          exact ih (i + 1) _ (by omega) (by simp)
        · exact ih (i + 1) _ (by omega) hne
    · split
      · rw [hpi, ok_bind]
        exact ih (i + 1) _ (by omega) (by simp)
      · split
        · split
          · rename_i hi1
            have hip2 : i + 1 < prices.length := by omega
            obtain ⟨p2, hp2, _⟩ := getPrice_ok_of_lt hip2
            rw [hp2, ok_bind]
            exact ih (i + 1) _ (by omega) (by simp)
          · exact ih (i + 1) _ (by omega) hne
        · split
          · rw [hvl, ok_bind]
            exact ih (i + 1) _ (by omega) (by simp)
          · exact ih (i + 1) _ (by omega) hne

/-- Claim C3, amended: the simulator performs no length validation and
raises no error on mismatched lengths; it silently iterates over the action
sequence only, and whenever the actions are strictly fewer than the prices
(and prices are nonzero) it succeeds and returns a trajectory. -/
theorem C3_mismatch_amended (actions : List ℤ) (prices : List ℚ) (b : ℚ)
    (hlt : actions.length < prices.length) (hnz : ∀ p ∈ prices, p ≠ 0) :
    ∃ vs, plot_portfolio actions prices b = Except.ok vs := by
  obtain ⟨s', hs'⟩ := (plotLoop_no_index_error prices actions.length hlt.le
    actions 0 ⟨[b], false, 0⟩ (by simp) (by simp)).2 hnz
  exact ⟨s'.portfolio_value, by unfold plot_portfolio; rw [hs', ok_map]⟩

/-- Claim C3, amended, witness: one action against two prices is accepted. -/
theorem C3_mismatch_amended_witness :
    ∃ vs, plot_portfolio [1] [100, 110] 1000 = Except.ok vs :=
  C3_mismatch_amended [1] [100, 110] 1000 (by norm_num)
    (by intro p hp; fin_cases hp <;> norm_num)

/-- Claim C9: throughout the loop, after every iteration the `own_share`
flag is equivalent to `num_shares > 0`. Stated over every prefix of the
action sequence (the state after `k` iterations of the full run), for a
positive initial balance and positive prices — the quantities the flag
mirrors are well-defined exactly when buying converts positive cash at a
positive price. -/
theorem C9_own_share_invariant (actions : List ℤ) (prices : List ℚ) (b : ℚ)
    (hb : 0 < b) (hp : ∀ p ∈ prices, 0 < p) (k : ℕ) (s' : PState)
    (h : plotLoop prices actions.length (actions.take k) 0
      ⟨[b], false, 0⟩ = Except.ok s') :
    s'.own_share = true ↔ 0 < s'.num_shares :=
  (plotLoop_inv prices actions.length hp (actions.take k) 0 ⟨[b], false, 0⟩ s'
    ⟨by simp, by simp, by simpa using hb⟩ h).1

/-- Claim C9, witness: after one iteration of the run with actions
`[BUY, SELL]`, prices `[100, 110]` and balance `1000`, the state is
`([1000, 1100], own_share = true, num_shares = 10)` and the flag matches
`num_shares > 0`. -/
theorem C9_own_share_invariant_witness :
    (PState.mk [1000, 1100] true 10).own_share = true ↔
      0 < (PState.mk [1000, 1100] true 10).num_shares :=
  C9_own_share_invariant [0, 2] [100, 110] 1000 (by norm_num)
    (by intro p hp; fin_cases hp <;> norm_num) 1 (PState.mk [1000, 1100] true 10)
    (by norm_num [plotLoop, lastValue, getPrice, pyDiv, ok_bind])

/-- Claim C10: with at most as many actions as prices, every price access of
the simulator is in bounds — the run never fails with an index error, and
under nonzero prices it is total, returning a trajectory. The equal-length
precondition is not needed for memory safety. -/
theorem C10_index_safety (actions : List ℤ) (prices : List ℚ) (b : ℚ)
    (h : actions.length ≤ prices.length) :
    plot_portfolio actions prices b ≠ Except.error SimError.indexError ∧
    ((∀ p ∈ prices, p ≠ 0) →
      ∃ vs, plot_portfolio actions prices b = Except.ok vs) := by
  have main := plotLoop_no_index_error prices actions.length h actions 0
    ⟨[b], false, 0⟩ (by simp) (by simp)
  constructor
  · intro hc
    unfold plot_portfolio at hc
    exact main.1 ((map_eq_error PState.portfolio_value _ _).mp hc)
  · intro hnz
    obtain ⟨s', hs'⟩ := main.2 hnz
    exact ⟨s'.portfolio_value, by unfold plot_portfolio; rw [hs', ok_map]⟩

/-- Claim C10, witness at actions `[BUY]`, prices `[100]`, balance `1000`. -/
theorem C10_index_safety_witness :
    plot_portfolio [0] [100] 1000 ≠ Except.error SimError.indexError ∧
    ((∀ p ∈ ([100] : List ℚ), p ≠ 0) →
      ∃ vs, plot_portfolio [0] [100] 1000 = Except.ok vs) :=
  C10_index_safety [0] [100] 1000 (by norm_num)

/-! ### FIFO ring semantics of the replay buffer -/

theorem dequeAppend_eq_drop {α : Type} {C : ℕ} {buf : List α} (x : α)
    (h : buf.length ≤ C) :
    dequeAppend C buf x = (buf ++ [x]).drop (buf.length + 1 - C) := by
  unfold dequeAppend
  by_cases h0 : C = 0
  · subst h0
    have hb : buf = [] := List.length_eq_zero.mp (Nat.le_zero.mp h)
    subst hb
    simp
  · rw [if_neg h0]
    by_cases hlt : buf.length < C
    · rw [if_pos hlt]
      have hz : buf.length + 1 - C = 0 := by omega
      rw [hz, List.drop_zero]
    · rw [if_neg hlt]
      have heq : buf.length = C := le_antisymm h (not_lt.mp hlt)
      have h1 : buf.length + 1 - C = 1 := by omega
      rw [h1]
      cases buf with
      | nil => simp at heq; exact absurd heq.symm h0
      | cons y ys => simp

theorem dequeAppend_length {α : Type} {C : ℕ} {buf : List α} (x : α)
    (h : buf.length ≤ C) :
    (dequeAppend C buf x).length = min (buf.length + 1) C := by
  rw [dequeAppend_eq_drop x h, List.length_drop]
  simp only [List.length_append, List.length_singleton]
  omega

/-- Closed form of repeated appends: the buffer keeps exactly the newest
elements, dropping everything older than the capacity allows. -/
theorem addAll_eq_drop {α : Type} (C : ℕ) (ts : List (Transition α)) :
    ∀ (buf : List (Transition α)), buf.length ≤ C →
      addAll C buf ts = (buf ++ ts).drop (buf.length + ts.length - C) := by
  induction ts with
  | nil =>
    intro buf h
    simp only [addAll, List.foldl_nil, List.append_nil, List.length_nil,
      Nat.add_zero]
    have hz : buf.length - C = 0 := by omega
    rw [hz, List.drop_zero]
  | cons t ts ih =>
    intro buf h
    have hlen1 : (dequeAppend C buf t).length ≤ C := by
      rw [dequeAppend_length t h]; omega
    have hstep : addAll C buf (t :: ts) = addAll C (dequeAppend C buf t) ts := by
      simp [addAll]
    rw [hstep, ih _ hlen1, dequeAppend_eq_drop t h,
      ← List.drop_append_of_le_length (show buf.length + 1 - C ≤ (buf ++ [t]).length by
        simp),
      List.drop_drop, List.append_assoc, List.singleton_append]
    congr 1
    simp only [List.length_drop, List.length_append, List.length_singleton,
      List.length_cons, List.length_nil]
    omega

/-- Claim C2: for every capacity `C ≥ 1` and every run of `N > C` insertions
into an initially empty buffer of capacity `C`, the final occupancy is
exactly `C`, the buffer holds exactly the newest `C` transitions (so, for
pairwise-distinct transitions, none of the first `N − C` remains), and the
occupancy never exceeds `C` at any intermediate point. -/
theorem C2_fifo_eviction (C : ℕ) (ts : List (Transition ℚ))
    (hC : 1 ≤ C) (hN : C < ts.length) :
    (addAll C [] ts).length = C ∧
    addAll C [] ts = ts.drop (ts.length - C) ∧
    (ts.Nodup → ∀ i (hi : i < ts.length), i < ts.length - C →
      ts.get ⟨i, hi⟩ ∉ addAll C [] ts) ∧
    (∀ k, (addAll C [] (ts.take k)).length ≤ C) := by
  have hdrop : addAll C [] ts = ts.drop (ts.length - C) := by
    rw [addAll_eq_drop C ts [] (by simp)]
    simp
  refine ⟨?_, hdrop, ?_, ?_⟩
  · rw [hdrop, List.length_drop]; omega
  · intro hnd i hi hlt hmem
    rw [hdrop] at hmem
    obtain ⟨j, hj, hget⟩ := List.mem_iff_getElem.mp hmem
    rw [List.getElem_drop] at hget
    have hj' : ts.length - C + j < ts.length := by
      have := List.length_drop (ts.length - C) ts ▸ hj
      omega
    have hinj := List.nodup_iff_injective_getElem.mp hnd
    have heq : (⟨ts.length - C + j, hj'⟩ : Fin ts.length) = ⟨i, hi⟩ := by
      apply hinj
      simpa using hget
    have : ts.length - C + j = i := congrArg Fin.val heq
    omega
  · intro k
    rw [addAll_eq_drop C _ [] (by simp)]
    simp only [List.nil_append, List.length_nil, Nat.zero_add, List.length_drop]
    omega

/-- Claim C2, witness at capacity `1` with two distinct insertions. -/
theorem C2_fifo_eviction_witness :
    (addAll 1 [] [Transition.mk (1 : ℚ) 1 1 1, Transition.mk 2 2 2 2]).length = 1 ∧
    addAll 1 [] [Transition.mk (1 : ℚ) 1 1 1, Transition.mk 2 2 2 2] =
      [Transition.mk (1 : ℚ) 1 1 1, Transition.mk 2 2 2 2].drop
        ([Transition.mk (1 : ℚ) 1 1 1, Transition.mk 2 2 2 2].length - 1) ∧
    ([Transition.mk (1 : ℚ) 1 1 1, Transition.mk 2 2 2 2].Nodup →
      ∀ i (hi : i < [Transition.mk (1 : ℚ) 1 1 1, Transition.mk 2 2 2 2].length),
        i < [Transition.mk (1 : ℚ) 1 1 1, Transition.mk 2 2 2 2].length - 1 →
        [Transition.mk (1 : ℚ) 1 1 1, Transition.mk 2 2 2 2].get ⟨i, hi⟩ ∉
          addAll 1 [] [Transition.mk (1 : ℚ) 1 1 1, Transition.mk 2 2 2 2]) ∧
    (∀ k, (addAll 1 []
      ([Transition.mk (1 : ℚ) 1 1 1, Transition.mk 2 2 2 2].take k)).length ≤ 1) :=
  C2_fifo_eviction 1 [Transition.mk 1 1 1 1, Transition.mk 2 2 2 2]
    (by decide) (by decide)

/-! ### Shape of stored transitions and of sampled batches -/

/-- Claim C4, counterexample: the `Experience` namedtuple declares four
fields, there is no `done` field, and a call supplying five values (the
claimed `(state, action, next_state, reward, done)`) is rejected with a
`TypeError` instead of being stored. -/
theorem C4_five_field_counterexample :
    experienceFields.length = 4 ∧ "done" ∉ experienceFields ∧
    mkTransition ([1, 2, 3, 4, 5] : List ℚ) = Except.error ReplayError.typeError ∧
    add_experience 10000 [] ([1, 2, 3, 4, 5] : List ℚ) =
      Except.error ReplayError.typeError :=
  ⟨rfl, by decide, rfl, rfl⟩

/-- Claim C4, amended: every transition stored in the buffer is a four-field
record `(state, action, next_state, reward)` — there is no `done` flag — and
`sample` in the separated form returns four parallel sequences, aligned by
index with the sampled batch. -/
theorem C4_four_field_amended (buf : List (Transition ℚ)) (k : ℕ)
    (sel : List (Fin buf.length)) (hlen : sel.length = k) (hk1 : 1 ≤ k)
    (hk : k ≤ buf.length) :
    (∀ (args : List ℚ) (t : Transition ℚ), mkTransition args = Except.ok t →
      args = [t.state, t.action, t.next_state, t.reward]) ∧
    ∃ samples sep, sampleList buf k sel = Except.ok samples ∧
      sampleSeparated buf k sel = Except.ok sep ∧
      sep.state.length = samples.length ∧ sep.action.length = samples.length ∧
      sep.next_state.length = samples.length ∧ sep.reward.length = samples.length ∧
      (∀ i : ℕ, sep.state[i]? = (samples[i]?).map Transition.state) ∧
      (∀ i : ℕ, sep.action[i]? = (samples[i]?).map Transition.action) ∧
      (∀ i : ℕ, sep.next_state[i]? = (samples[i]?).map Transition.next_state) ∧
      (∀ i : ℕ, sep.reward[i]? = (samples[i]?).map Transition.reward) := by
  constructor
  · intro args t h
    rcases args with _ | ⟨s, args⟩
    · simp [mkTransition] at h
    rcases args with _ | ⟨a, args⟩
    · simp [mkTransition] at h
    rcases args with _ | ⟨ns, args⟩
    · simp [mkTransition] at h
    rcases args with _ | ⟨r, args⟩
    · simp [mkTransition] at h
    rcases args with _ | ⟨x, args⟩
    · simp only [mkTransition] at h
      obtain rfl := Except.ok.inj h
      rfl
    · simp [mkTransition] at h
  · have hrs : randomSample buf k sel = Except.ok (sel.map buf.get) := by
      unfold randomSample; rw [if_pos hk]
    have hne : sel.map buf.get ≠ [] := by
      intro hh
      rw [List.map_eq_nil_iff] at hh
      rw [hh] at hlen
      simp at hlen
      omega
    have hsep : separateSamples (sel.map buf.get) =
        Except.ok ⟨(sel.map buf.get).map Transition.state,
          (sel.map buf.get).map Transition.action,
          (sel.map buf.get).map Transition.next_state,
          (sel.map buf.get).map Transition.reward⟩ := by
      rcases hs : sel.map buf.get with _ | ⟨hd, tl⟩
      · exact absurd hs hne
      · rw [← hs]; unfold separateSamples; rw [hs]
    refine ⟨sel.map buf.get,
      ⟨(sel.map buf.get).map Transition.state,
        (sel.map buf.get).map Transition.action,
        (sel.map buf.get).map Transition.next_state,
        (sel.map buf.get).map Transition.reward⟩,
      hrs, ?_, by simp, by simp, by simp, by simp, ?_, ?_, ?_, ?_⟩
    · unfold sampleSeparated
      rw [hrs, ok_bind, hsep]
    all_goals intro i
    all_goals simp [List.getElem?_map]

/-- Claim C4, amended, witness: a one-element buffer sampled with `k = 1`. -/
theorem C4_four_field_amended_witness :
    (∀ (args : List ℚ) (t : Transition ℚ), mkTransition args = Except.ok t →
      args = [t.state, t.action, t.next_state, t.reward]) ∧
    ∃ samples sep,
      sampleList [Transition.mk (1 : ℚ) 2 3 4] 1 [⟨0, by decide⟩] =
        Except.ok samples ∧
      sampleSeparated [Transition.mk (1 : ℚ) 2 3 4] 1 [⟨0, by decide⟩] =
        Except.ok sep ∧
      sep.state.length = samples.length ∧ sep.action.length = samples.length ∧
      sep.next_state.length = samples.length ∧ sep.reward.length = samples.length ∧
      (∀ i : ℕ, sep.state[i]? = (samples[i]?).map Transition.state) ∧
      (∀ i : ℕ, sep.action[i]? = (samples[i]?).map Transition.action) ∧
      (∀ i : ℕ, sep.next_state[i]? = (samples[i]?).map Transition.next_state) ∧
      (∀ i : ℕ, sep.reward[i]? = (samples[i]?).map Transition.reward) :=
  C4_four_field_amended [Transition.mk 1 2 3 4] 1 [⟨0, by decide⟩]
    rfl (by decide) (by decide)

/-- Claim C5: asking `sample` for strictly more transitions than the buffer
holds fails (Python raises through `random.sample`; the spec calls this
failure `InsufficientDataError`), in both the list and the separated form. -/
theorem C5_insufficient_sample (buf : List (Transition ℚ)) (k : ℕ)
    (sel : List (Fin buf.length)) (h : buf.length < k) :
    sampleList buf k sel = Except.error ReplayError.insufficientData ∧
    sampleSeparated buf k sel = Except.error ReplayError.insufficientData := by
  have h1 : randomSample buf k sel = Except.error ReplayError.insufficientData := by
    unfold randomSample
    rw [if_neg (by omega)]
  refine ⟨h1, ?_⟩
  unfold sampleSeparated
  rw [h1, error_bind]

/-- Claim C5, witness: sampling one transition from an empty buffer. -/
theorem C5_insufficient_sample_witness :
    sampleList ([] : List (Transition ℚ)) 1 [] =
      Except.error ReplayError.insufficientData ∧
    sampleSeparated ([] : List (Transition ℚ)) 1 [] =
      Except.error ReplayError.insufficientData :=
  C5_insufficient_sample [] 1 [] (by decide)

/-- Claim C6: sampling `k ≤` occupancy with a duplicate-free selection of
`k` positions (what `random.sample` draws) returns exactly `k` transitions
forming a sub-multiset of the buffer — no buffer entry is returned twice
within one batch. -/
theorem C6_sample_distinct (buf : List (Transition ℚ)) (k : ℕ)
    (sel : List (Fin buf.length)) (hnd : sel.Nodup) (hlen : sel.length = k)
    (hk : k ≤ buf.length) :
    ∃ samples, sampleList buf k sel = Except.ok samples ∧
      samples.length = k ∧ List.Subperm samples buf := by
  refine ⟨sel.map buf.get, by unfold sampleList randomSample; rw [if_pos hk],
    by simp [hlen], ?_⟩
  obtain ⟨l, hperm, hsl⟩ := hnd.subperm (fun i _ => List.mem_finRange i)
  refine ⟨l.map buf.get, hperm.map buf.get, ?_⟩
  have hmap := hsl.map buf.get
  rwa [List.finRange_map_get] at hmap

/-- Claim C6, witness: both entries of a two-element buffer sampled with
`k = 2`. -/
theorem C6_sample_distinct_witness :
    ∃ samples,
      sampleList [Transition.mk (1 : ℚ) 1 1 1, Transition.mk 2 2 2 2] 2
        [⟨0, by decide⟩, ⟨1, by decide⟩] = Except.ok samples ∧
      samples.length = 2 ∧
      List.Subperm samples [Transition.mk (1 : ℚ) 1 1 1, Transition.mk 2 2 2 2] :=
  C6_sample_distinct [Transition.mk 1 1 1 1, Transition.mk 2 2 2 2] 2
    [⟨0, by decide⟩, ⟨1, by decide⟩] (by decide) rfl (by decide)
